import Mathlib

/-!
Verification of the Git tag server (server.py) against its design document.

Python strings are modeled as lists of characters (`Str := List Char`);
the Python library operations the source uses (str.split, str.strip,
str.replace, str.join, urllib.parse.quote, int()) are defined below with
Python's semantics.  Handlers are modeled as functions of their decoded
request parameters, the loaded configuration, and an environment value
describing each external git subprocess invocation (exit code, stdout,
stderr, or a timeout / raised exception).
-/

namespace GitTag

/-- Python strings, modeled as lists of characters. -/
abbrev Str := List Char

/-- Convenience: a Lean string literal as a Python string value. -/
def strOf (s : String) : Str := s.toList

/-- Python str.strip() whitespace class (the ASCII part used by this code). -/
def isPySpace (c : Char) : Bool :=
  c = ' ' || c = '\t' || c = '\n' || c = '\r' || c = '\x0b' || c = '\x0c'

/-- Python s.strip(): drop leading and trailing whitespace. -/
def pyStrip (s : Str) : Str :=
  List.rdropWhile isPySpace (s.dropWhile isPySpace)

/-- First occurrence of nonempty needle sep in s: returns the text before the
occurrence and the text after it, or none if sep does not occur. -/
def findSplit (sep : Str) : Str → Option (Str × Str)
  | [] => none
  | c :: rest =>
    if sep.isPrefixOf (c :: rest) then some ([], (c :: rest).drop sep.length)
    else (findSplit sep rest).map (fun p => (c :: p.1, p.2))

/-- Python membership test: needle in s (for nonempty needles). -/
def pyIn (needle s : Str) : Bool := (findSplit needle s).isSome

/-- Fuel-driven worker for pySplit (fuel bounds the number of separators). -/
def pySplitF : Nat → Str → Str → List Str
  | 0, _, s => [s]
  | fuel + 1, sep, s =>
    match findSplit sep s with
    | none => [s]
    | some (a, b) => a :: pySplitF fuel sep b

/-- Python s.split(sep) for a nonempty separator sep. -/
def pySplit (sep s : Str) : List Str := pySplitF (s.length + 1) sep s

/-- Python sep.join(xs). -/
def pyJoin (sep : Str) : List Str → Str
  | [] => []
  | [x] => x
  | x :: rest => x ++ sep ++ pyJoin sep rest

/-- Python s.replace(old, new) for a nonempty old. -/
def pyReplace (old new s : Str) : Str := pyJoin new (pySplit old s)

/-- Python s.split('\n') and the other single-character splits: never returns
an empty list, and empty input gives one empty field, matching Python. -/
def splitChar (c : Char) : Str → List Str
  | [] => [[]]
  | x :: s =>
    if x = c then [] :: splitChar c s
    else
      match splitChar c s with
      | [] => [[x]]
      | h :: t => (x :: h) :: t

/-- Fuel-driven worker for Python s.split() with no separator argument. -/
def pySplitWSF : Nat → Str → List Str
  | 0, _ => []
  | fuel + 1, s =>
    match s.dropWhile isPySpace with
    | [] => []
    | c :: rest =>
      (c :: rest.takeWhile (fun x => !isPySpace x)) ::
        pySplitWSF fuel (rest.dropWhile (fun x => !isPySpace x))

/-- Python s.split() with no argument: split on whitespace runs, no empties. -/
def pySplitWS (s : Str) : List Str := pySplitWSF (s.length + 1) s

/-- Value of a nonempty all-digit string, else none. -/
def digitsVal? (s : Str) : Option Nat :=
  if s = [] then none
  else
    s.foldl
      (fun acc c =>
        match acc with
        | none => none
        | some v => if c.isDigit then some (v * 10 + (c.toNat - 48)) else none)
      (some 0)

/-- Python int(s) on a string: strips whitespace, optional sign, decimal
digits; none models the ValueError path. -/
def pyToInt? (s : Str) : Option Int :=
  match pyStrip s with
  | '-' :: ds => (digitsVal? ds).map (fun n => -(n : Int))
  | '+' :: ds => (digitsVal? ds).map (fun n => (n : Int))
  | ds => (digitsVal? ds).map (fun n => (n : Int))

/-- UTF-8 encoding of one character, as byte values. -/
def utf8Bytes (c : Char) : List Nat :=
  let n := c.toNat
  if n < 0x80 then [n]
  else if n < 0x800 then [0xC0 + n / 0x40, 0x80 + n % 0x40]
  else if n < 0x10000 then
    [0xE0 + n / 0x1000, 0x80 + n / 0x40 % 0x40, 0x80 + n % 0x40]
  else
    [0xF0 + n / 0x40000, 0x80 + n / 0x1000 % 0x40, 0x80 + n / 0x40 % 0x40,
      0x80 + n % 0x40]

/-- Uppercase hex digit, as used by urllib percent-escapes. -/
def hexDigit (n : Nat) : Char :=
  if n < 10 then Char.ofNat (48 + n) else Char.ofNat (55 + n)

/-- Characters urllib.parse.quote never escapes (its always-safe set; the
source passes an empty extra safe set). -/
def isUrlSafe (c : Char) : Bool :=
  c.isAlpha || c.isDigit || c = '_' || c = '.' || c = '-' || c = '~'

/-- Python urllib.parse.quote(s, safe='') percent-encoding. -/
def pyQuote (s : Str) : Str :=
  s.flatMap fun c =>
    if isUrlSafe c then [c]
    else (utf8Bytes c).flatMap fun b => ['%', hexDigit (b / 16), hexDigit (b % 16)]

instance {ε α : Type} [DecidableEq ε] [DecidableEq α] : DecidableEq (Except ε α)
  | .error a, .error b =>
    decidable_of_iff (a = b) ⟨fun h => by rw [h], fun h => by cases h; rfl⟩
  | .error _, .ok _ => isFalse (fun h => by cases h)
  | .ok _, .error _ => isFalse (fun h => by cases h)
  | .ok a, .ok b =>
    decidable_of_iff (a = b) ⟨fun h => by rw [h], fun h => by cases h; rfl⟩

/-! ## Remote URL resolution (server.py lines 247-299, 380-427, 548-595, 676-733)

The same resolution block is repeated verbatim in fetch_repo_branches,
fetch_repo_commits, fetch_repo_tags and bulk_tag_repos; it is defined once
here and shared. -/

/-- The loaded configuration dict, restricted to the keys the handlers read;
a missing key is none (the handlers apply config.get defaults themselves). -/
structure Config where
  organization : Option Str
  baseUrl : Option Str
  gitUsername : Option Str
  gitToken : Option Str

/-- org = config.get('organization', ''). -/
def cfgOrg (cfg : Config) : Str := cfg.organization.getD []

/-- default_base_url = config.get('baseUrl', 'https://dev.azure.com'). -/
def cfgBaseUrl (cfg : Config) : Str := cfg.baseUrl.getD (strOf "https://dev.azure.com")

/-- git_username = config.get('gitUsername', ''). -/
def cfgUser (cfg : Config) : Str := cfg.gitUsername.getD []

/-- git_token = config.get('gitToken', ''). -/
def cfgToken (cfg : Config) : Str := cfg.gitToken.getD []

/-- The auth_part computation (e.g. lines 259-266): token and username are
tested for Python truthiness (nonempty) and percent-encoded when embedded. -/
def auth_part (git_username git_token : Str) : Str :=
  if git_token ≠ [] then
    if git_username ≠ [] then
      pyQuote git_username ++ strOf ":" ++ pyQuote git_token ++ strOf "@"
    else pyQuote git_token ++ strOf "@"
  else if git_username ≠ [] then pyQuote git_username ++ strOf "@"
  else []

/-- base_url_clean = base_url.replace('https://', '').replace('http://', ''). -/
def base_url_clean (base_url : Str) : Str :=
  pyReplace (strOf "http://") [] (pyReplace (strOf "https://") [] base_url)

/-- True when the base URL is treated as a full direct Git URL (line 256). -/
def isDirectUrl (base_url : Str) : Bool :=
  pyIn (strOf ".git") base_url || pyIn (strOf "github.com") base_url ||
    pyIn (strOf "gitlab.com") base_url

/-- Repo URL construction shared by all four handlers (lines 256-299 and its
three verbatim copies).  The error value models send_error(400, ...) on a
missing organization for the dev.azure.com dialect. -/
def resolve_repo_url (org base_url git_username git_token project_name repo_name : Str) :
    Except Str Str :=
  let auth := auth_part git_username git_token
  if isDirectUrl base_url then
    .ok (if auth ≠ [] then strOf "https://" ++ auth ++ base_url_clean base_url else base_url)
  else
    let clean := base_url_clean base_url
    if pyIn (strOf "visualstudio.com") clean then
      .ok
        (if auth ≠ [] then
          strOf "https://" ++ auth ++ clean ++ strOf "/" ++ project_name ++
            strOf "/_git/" ++ repo_name
        else
          strOf "https://" ++ clean ++ strOf "/" ++ project_name ++ strOf "/_git/" ++
            repo_name)
    else if org = [] then .error (strOf "organization required for dev.azure.com URLs")
    else
      .ok
        (if auth ≠ [] then
          strOf "https://" ++ auth ++ clean ++ strOf "/" ++ org ++ strOf "/" ++
            project_name ++ strOf "/_git/" ++ repo_name
        else
          strOf "https://" ++ org ++ strOf "@" ++ clean ++ strOf "/" ++ org ++
            strOf "/" ++ project_name ++ strOf "/_git/" ++ repo_name)

/-! ## Subprocess environment and HTTP responses -/

/-- Outcome of one subprocess.run call: normal completion with exit code,
stdout and stderr; subprocess.TimeoutExpired; or some other raised
exception (whose str() is carried). -/
inductive SubprocOut where
  | ran (exitcode : Int) (stdout : Str) (stderr : Str)
  | timedOut
  | raised (msg : Str)
  deriving DecidableEq

/-- An HTTP response: either a 200-level JSON payload (send_response) or an
error status with message (send_error). -/
inductive HttpOut (α : Type) where
  | ok (status : Nat) (payload : α)
  | err (status : Nat) (message : Str)
  deriving DecidableEq

/-! ## Ref listing: fetch_repo_branches (lines 227-356) and fetch_repo_tags
(lines 520-652) -/

/-- One branch or tag entry as built at lines 333-337 / 629-633. -/
structure RefEntry where
  name : Str
  commit : Str
  shortCommit : Str
  deriving DecidableEq

/-- Payload of a ref-listing response: the refs key is named branches for
fetch_repo_branches and tags for fetch_repo_tags. -/
structure RefsPayload where
  refs : List RefEntry
  error : Option Str
  deriving DecidableEq

/-- Parse git ls-remote output (lines 326-337 / 622-633): split stripped
stdout into lines, keep lines containing the namespace prefix ns with at
least two whitespace-separated parts; the commit is the first part, the name
is what follows ns inside the second part, stripped; the short commit is the
first seven characters of the commit.  Python indexes parts[0], parts[1] and
the [1] of the ns split; the getD defaults model positions the guards make
unreachable. -/
def parseRefLines (ns : Str) (stdout : Str) : List RefEntry :=
  (splitChar '\n' (pyStrip stdout)).filterMap fun line =>
    if line ≠ [] && pyIn ns line then
      let parts := pySplitWS line
      if 2 ≤ parts.length then
        let commit_hash := parts.headD []
        let nm := pyStrip ((pySplit ns (parts.getD 1 [])).getD 1 [])
        some ⟨nm, commit_hash, commit_hash.take 7⟩
      else none
    else none

/-- The fetch_repo_branches handler: query parameters repo, project and
baseUrl (already URL-decoded; none when absent), the loaded config (none
when loading failed) and the git ls-remote --heads invocation's outcome. -/
def fetch_repo_branches (repoParam projectParam baseUrlParam : Option Str)
    (config : Option Config) (lsRemote : SubprocOut) : HttpOut RefsPayload :=
  match repoParam with
  | none => .err 400 (strOf "Missing required parameter: repo")
  | some repo_name =>
    let project_name := projectParam.getD repo_name
    match config with
    | none => .err 500 (strOf "Failed to load config")
    | some cfg =>
      let base_url := baseUrlParam.getD (cfgBaseUrl cfg)
      match resolve_repo_url (cfgOrg cfg) base_url (cfgUser cfg) (cfgToken cfg)
          project_name repo_name with
      | .error e => .err 400 e
      | .ok _repo_url =>
        match lsRemote with
        | .timedOut => .err 504 (strOf "Git operation timed out")
        | .raised m => .err 500 (strOf "Internal Server Error: " ++ m)
        | .ran code stdout stderr =>
          if code ≠ 0 then .ok 200 ⟨[], some stderr⟩
          else .ok 200 ⟨parseRefLines (strOf "refs/heads/") stdout, none⟩

/-- The fetch_repo_tags handler; identical to fetch_repo_branches except it
lists refs/tags/ (the source reloads the config file itself at lines
535-546, with the same result as get_config). -/
def fetch_repo_tags (repoParam projectParam baseUrlParam : Option Str)
    (config : Option Config) (lsRemote : SubprocOut) : HttpOut RefsPayload :=
  match repoParam with
  | none => .err 400 (strOf "Missing required parameter: repo")
  | some repo_name =>
    let project_name := projectParam.getD repo_name
    match config with
    | none => .err 500 (strOf "Error loading config")
    | some cfg =>
      let base_url := baseUrlParam.getD (cfgBaseUrl cfg)
      match resolve_repo_url (cfgOrg cfg) base_url (cfgUser cfg) (cfgToken cfg)
          project_name repo_name with
      | .error e => .err 400 e
      | .ok _repo_url =>
        match lsRemote with
        | .timedOut => .err 504 (strOf "Git operation timed out")
        | .raised m => .err 500 (strOf "Internal Server Error: " ++ m)
        | .ran code stdout stderr =>
          if code ≠ 0 then .ok 200 ⟨[], some stderr⟩
          else .ok 200 ⟨parseRefLines (strOf "refs/tags/") stdout, none⟩

/-! ## Commit history: fetch_repo_commits (lines 358-518) -/

/-- One parsed commit (lines 490-499).  The derived human-readable date
string (time.strftime of the timestamp, line 496) is a locale/timezone
rendering of timestamp and is not modeled. -/
structure CommitEntry where
  hash : Str
  shortHash : Str
  author : Str
  email : Str
  timestamp : Int
  subject : Str
  body : Str
  deriving DecidableEq

/-- The record delimiter in the git log format string (line 457). -/
def SENTINEL : Str := strOf "---COMMIT-END---"

/-- Parse one sentinel-delimited record (lines 476-499): skip blank records;
strip, split into lines; accept only records of at least 6 lines; fields in
order are hash, short hash, author name, author email, epoch timestamp,
subject, and the remaining lines rejoined with newlines and stripped form
the body.  The error value models the uncaught ValueError of
int(timestamp), which aborts the whole request. -/
def parseCommitText (commit_text : Str) : Except Str (Option CommitEntry) :=
  if pyStrip commit_text = [] then .ok none
  else
    let lines := splitChar '\n' (pyStrip commit_text)
    if 6 ≤ lines.length then
      match pyToInt? (lines.getD 4 []) with
      | none => .error (strOf "invalid literal for int")
      | some ts =>
        .ok (some
          { hash := lines.getD 0 [], shortHash := lines.getD 1 [],
            author := lines.getD 2 [], email := lines.getD 3 [], timestamp := ts,
            subject := lines.getD 5 [],
            body :=
              if 6 < lines.length then
                pyStrip (pyJoin (strOf "\n") (lines.drop 6))
              else [] })
    else .ok none

/-- Parse a whole git log output (lines 472-499): split the stdout on the
sentinel and collect the accepted records in order. -/
def parseCommitLog (stdout : Str) : Except Str (List CommitEntry) :=
  (pySplit SENTINEL stdout).foldlM
    (fun acc t =>
      (parseCommitText t).map fun o =>
        match o with
        | none => acc
        | some e => acc ++ [e])
    []

/-- branch = query_params.get('branch', ['dev'])[0] (line 371). -/
def commits_branch_param (branchParam : Option Str) : Str :=
  branchParam.getD (strOf "dev")

/-- limit = int(query_params.get('limit', ['10'])[0]) (line 372); none is
the uncaught ValueError, which the outer handler turns into a 500. -/
def commits_limit_param (limitParam : Option Str) : Option Int :=
  pyToInt? (limitParam.getD (strOf "10"))

/-- Payload of a commit-listing response: {commits, branch} on success,
{commits: [], error} when the clone or the log invocation fails. -/
structure CommitsPayload where
  commits : List CommitEntry
  branch : Option Str
  error : Option Str
  deriving DecidableEq

/-- The fetch_repo_commits handler: decoded query parameters, the loaded
config, the clone invocation's outcome and the git log invocation's
outcome. -/
def fetch_repo_commits (repoParam projectParam branchParam limitParam baseUrlParam : Option Str)
    (config : Option Config) (clone gitLog : SubprocOut) : HttpOut CommitsPayload :=
  match repoParam with
  | none => .err 400 (strOf "Missing required parameter: repo")
  | some repo_name =>
    let project_name := projectParam.getD repo_name
    let branch := commits_branch_param branchParam
    match commits_limit_param limitParam with
    | none => .err 500 (strOf "Internal Server Error: invalid literal for int")
    | some _limit =>
      match config with
      | none => .err 500 (strOf "Failed to load config")
      | some cfg =>
        let base_url := baseUrlParam.getD (cfgBaseUrl cfg)
        match resolve_repo_url (cfgOrg cfg) base_url (cfgUser cfg) (cfgToken cfg)
            project_name repo_name with
        | .error e => .err 400 e
        | .ok _repo_url =>
          match clone with
          | .timedOut => .err 504 (strOf "Git operation timed out")
          | .raised m => .err 500 (strOf "Internal Server Error: " ++ m)
          | .ran ccode _cout cerr =>
            if ccode ≠ 0 then .ok 200 ⟨[], none, some cerr⟩
            else
              match gitLog with
              | .timedOut => .err 504 (strOf "Git operation timed out")
              | .raised m => .err 500 (strOf "Internal Server Error: " ++ m)
              | .ran lcode lout lerr =>
                if lcode ≠ 0 then .ok 200 ⟨[], none, some lerr⟩
                else
                  match parseCommitLog lout with
                  | .error m => .err 500 (strOf "Internal Server Error: " ++ m)
                  | .ok commits => .ok 200 ⟨commits, some branch, none⟩

/-! ## Model of the git log subprocess output

The git executable is external; the format string
'%H%n%h%n%an%n%ae%n%at%n%s%n%b%n---COMMIT-END---' (line 457) determines the
shape of its stdout as a function of the commits it reports. -/

/-- Modelled from the environment: one commit as git reports it, each field
the literal text git substitutes for the corresponding placeholder. -/
structure RawCommit where
  hash : Str
  shortHash : Str
  author : Str
  email : Str
  timestampText : Str
  subject : Str
  body : Str
  deriving DecidableEq

/-- The text of one record, before the sentinel: the seven placeholder
expansions joined by newlines. -/
def renderCommit (r : RawCommit) : Str :=
  r.hash ++ ('\n' :: (r.shortHash ++ ('\n' :: (r.author ++ ('\n' :: (r.email ++
    ('\n' :: (r.timestampText ++ ('\n' :: (r.subject ++ ('\n' :: r.body)))))))))))

/-- Modelled from the environment: git log --pretty=format joins the
per-commit renderings with newlines, each rendering ending in the sentinel
(so the output of n commits is the n record texts interleaved with
newline-sentinel-newline, ending in the sentinel). -/
def renderLog : List RawCommit → Str
  | [] => []
  | [r] => renderCommit r ++ '\n' :: SENTINEL
  | r :: rest => renderCommit r ++ '\n' :: SENTINEL ++ '\n' :: renderLog rest

/-- The chunk list that splitting a rendered log at the sentinel produces:
each record text padded with the newlines adjacent to the sentinels, and a
final empty chunk after the last sentinel. -/
def logChunks (pad : Str) : List RawCommit → List Str
  | [] => [pad]
  | r :: rest =>
    (pad ++ renderCommit r ++ ['\n']) ::
      logChunks (if rest.isEmpty then [] else ['\n']) rest

/-- Modelled from the environment: git log -n emits at most n records,
newest first, so its stdout is the rendering of the first n commits of the
branch history. -/
def gitLogStdout (history : List RawCommit) (n : Nat) : Str :=
  renderLog (history.take n)

/-- The CommitEntry the parser is expected to recover from one well-formed
raw record. -/
def toEntry (r : RawCommit) : CommitEntry :=
  { hash := r.hash, shortHash := r.shortHash, author := r.author,
    email := r.email, timestamp := (pyToInt? r.timestampText).getD 0,
    subject := r.subject, body := r.body }

/-- Timestamp value of a raw record. -/
def rawTs (r : RawCommit) : Int := (pyToInt? r.timestampText).getD 0

/-- Well-formedness of one raw record, under which the parser recovers it
exactly: the six single-line fields contain no newline, hash and subject are
nonempty with no whitespace at the record's outer edges, the body carries no
leading or trailing whitespace, the timestamp is an integer literal, and the
sentinel does not occur early inside the record (including an occurrence
straddling into the sentinel that follows it). -/
def wfRawCommit (r : RawCommit) : Prop :=
  '\n' ∉ r.hash ∧ '\n' ∉ r.shortHash ∧ '\n' ∉ r.author ∧ '\n' ∉ r.email ∧
    '\n' ∉ r.timestampText ∧ '\n' ∉ r.subject ∧
    r.hash ≠ [] ∧ isPySpace (r.hash.headD 'x') = false ∧
    r.subject ≠ [] ∧ isPySpace (r.subject.getLastD 'x') = false ∧
    isPySpace (r.body.headD 'x') = false ∧ isPySpace (r.body.getLastD 'x') = false ∧
    (pyToInt? r.timestampText).isSome = true ∧
    pyIn SENTINEL ('\n' :: renderCommit r ++ '\n' :: SENTINEL.dropLast) = false

instance (r : RawCommit) : Decidable (wfRawCommit r) := by
  unfold wfRawCommit; infer_instance

/-! ## Bulk tagging: bulk_tag_repos (lines 654-828) -/

/-- One entry of the request's repos list: repo_info['repo'] is required
(a missing key would raise KeyError); project and baseUrl are optional
(lines 684-686). -/
structure BulkTarget where
  repo : Str
  project : Option Str
  baseUrl : Option Str
  deriving DecidableEq

/-- Per-target subprocess outcomes supplied by the environment: the clone
(line 740), the two best-effort tag deletions run without check and without
timeout (lines 759, 762, exit code and stderr), the tag creation (line 765)
and the push (line 781). -/
structure TargetEnv where
  clone : SubprocOut
  deleteLocalTag : Int × Str
  deleteRemoteTag : Int × Str
  createTag : SubprocOut
  push : SubprocOut
  deriving DecidableEq

/-- One per-repository outcome as appended to results: the repo key, the
success flag, and the message (success) or error (failure) text. -/
structure TagResult where
  repo : Str
  success : Bool
  text : Str
  deriving DecidableEq

/-- The body of the per-target loop (lines 683-818).  Every path produces
exactly one TagResult: resolution failure (lines 723-729), clone failure
(748-754), tag-creation failure (772-778), push failure (789-795), success
(797-801), per-target timeout (804-809) and per-target exception (810-815).
The two best-effort deletions (759-762) are run with their outcomes
discarded. -/
def process_target (cfg : Config) (branch_name tag_name : Str) (t : BulkTarget)
    (env : TargetEnv) : TagResult :=
  let repo_name := t.repo
  let project_name := t.project.getD repo_name
  let base_url := t.baseUrl.getD (cfgBaseUrl cfg)
  match resolve_repo_url (cfgOrg cfg) base_url (cfgUser cfg) (cfgToken cfg)
      project_name repo_name with
  | .error e => ⟨repo_name, false, e⟩
  | .ok _repo_url =>
    match env.clone with
    | .timedOut => ⟨repo_name, false, strOf "Operation timed out"⟩
    | .raised m => ⟨repo_name, false, m⟩
    | .ran ccode _cout cerr =>
      if ccode ≠ 0 then
        ⟨repo_name, false,
          strOf "Failed to clone branch " ++ branch_name ++ strOf ": " ++ cerr⟩
      else
        match env.createTag with
        | .timedOut => ⟨repo_name, false, strOf "Operation timed out"⟩
        | .raised m => ⟨repo_name, false, m⟩
        | .ran tcode _tout terr =>
          if tcode ≠ 0 then
            ⟨repo_name, false, strOf "Failed to create tag: " ++ terr⟩
          else
            match env.push with
            | .timedOut => ⟨repo_name, false, strOf "Operation timed out"⟩
            | .raised m => ⟨repo_name, false, m⟩
            | .ran pcode _pout perr =>
              if pcode ≠ 0 then
                ⟨repo_name, false, strOf "Failed to push tag: " ++ perr⟩
              else
                ⟨repo_name, true,
                  strOf "Successfully tagged " ++ branch_name ++ strOf " with " ++
                    tag_name⟩

/-- The bulk_tag_repos handler: branch, tag (none when the JSON key is
absent), the repos list, the loaded config, and for each target index its
subprocess environment.  Empty or absent branch/tag/repos fail the whole
call (line 666); otherwise the loop appends one result per target. -/
def bulk_tag_repos (branchParam tagParam : Option Str) (repos : List BulkTarget)
    (config : Option Config) (envs : Nat → TargetEnv) : HttpOut (List TagResult) :=
  let branch_name := branchParam.getD []
  let tag_name := tagParam.getD []
  if branch_name = [] || tag_name = [] || repos = [] then
    .err 400 (strOf "Missing required parameters: branch, tag, repos")
  else
    match config with
    | none => .err 500 (strOf "Failed to load config")
    | some cfg =>
      .ok 200 (repos.enum.map fun p => process_target cfg branch_name tag_name p.2 (envs p.1))

/-- Modelled from the spec: the credential-prefix rule as the design states
it: if a token is present, the prefix is username-colon-token-at when a
username is also present, else token-at; else if only a username is present,
username-at; else empty; username and token percent-encoded. -/
def credPrefixSpec (username token : Str) : Str :=
  match username, token with
  | u :: us, t :: ts => pyQuote (u :: us) ++ strOf ":" ++ pyQuote (t :: ts) ++ strOf "@"
  | [], t :: ts => pyQuote (t :: ts) ++ strOf "@"
  | u :: us, [] => pyQuote (u :: us) ++ strOf "@"
  | [], [] => []

/-! ## Helper lemmas -/

theorem splitChar_cons_self (c : Char) (t : Str) :
    splitChar c (c :: t) = [] :: splitChar c t := by
  conv_lhs => rw [splitChar]
  rw [if_pos rfl]

theorem splitChar_cons_of_ne (c x : Char) (t a : Str) (b : List Str) (hx : x ≠ c)
    (h : splitChar c t = a :: b) : splitChar c (x :: t) = (x :: a) :: b := by
  conv_lhs => rw [splitChar]
  rw [if_neg hx, h]

theorem splitChar_ne_nil (c : Char) (s : Str) : splitChar c s ≠ [] := by
  induction s with
  | nil => simp [splitChar]
  | cons x t ih =>
    by_cases hx : x = c
    · subst hx
      rw [splitChar_cons_self]
      simp
    · cases h : splitChar c t with
      | nil => exact absurd h ih
      | cons a b =>
        rw [splitChar_cons_of_ne c x t a b hx h]
        simp

theorem splitChar_append_cons (c : Char) (a rest : Str) (ha : c ∉ a) :
    splitChar c (a ++ c :: rest) = a :: splitChar c rest := by
  induction a with
  | nil => simpa using splitChar_cons_self c rest
  | cons x t ih =>
    have hx : x ≠ c := fun h => ha (h ▸ List.mem_cons_self x t)
    have ht : c ∉ t := fun h => ha (List.mem_cons_of_mem x h)
    rw [List.cons_append, splitChar_cons_of_ne c x (t ++ c :: rest) t
      (splitChar c rest) hx (ih ht)]

theorem splitChar_eq_singleton (c : Char) (a : Str) (ha : c ∉ a) :
    splitChar c a = [a] := by
  induction a with
  | nil => rfl
  | cons x t ih =>
    have hx : x ≠ c := fun h => ha (h ▸ List.mem_cons_self x t)
    have ht : c ∉ t := fun h => ha (List.mem_cons_of_mem x h)
    exact splitChar_cons_of_ne c x t t [] hx (ih ht)

theorem pyJoin_splitChar (c : Char) (s : Str) :
    pyJoin [c] (splitChar c s) = s := by
  induction s with
  | nil => rfl
  | cons x t ih =>
    by_cases hx : x = c
    · subst hx
      rw [splitChar_cons_self]
      cases h : splitChar x t with
      | nil => exact absurd h (splitChar_ne_nil x t)
      | cons a b =>
        rw [h] at ih
        show [] ++ [x] ++ pyJoin [x] (a :: b) = x :: t
        rw [ih]
        rfl
    · cases h : splitChar c t with
      | nil => exact absurd h (splitChar_ne_nil c t)
      | cons a b =>
        rw [h] at ih
        rw [splitChar_cons_of_ne c x t a b hx h]
        cases b with
        | nil =>
          show x :: a = x :: t
          rw [show pyJoin [c] [a] = a from rfl] at ih
          rw [ih]
        | cons b0 bs =>
          show (x :: a) ++ [c] ++ pyJoin [c] (b0 :: bs) = x :: t
          rw [show pyJoin [c] (a :: b0 :: bs) = a ++ [c] ++ pyJoin [c] (b0 :: bs) from rfl]
            at ih
          rw [← ih]
          simp

theorem pyStrip_cons_ws (x : Char) (s : Str) (hx : isPySpace x = true) :
    pyStrip (x :: s) = pyStrip s := by
  unfold pyStrip
  rw [List.dropWhile_cons, if_pos hx]

theorem pyStrip_append_ws (x : Char) (s : Str) (hx : isPySpace x = true) :
    pyStrip (s ++ [x]) = pyStrip s := by
  unfold pyStrip
  rcases h : s.dropWhile isPySpace with _ | ⟨d, ds⟩
  · have : List.dropWhile isPySpace (s ++ [x]) = [] := by
      rw [List.dropWhile_append, h]
      simp [hx]
    rw [this]
  · have : List.dropWhile isPySpace (s ++ [x]) = s.dropWhile isPySpace ++ [x] := by
      rw [List.dropWhile_append, h]
      simp
    rw [this, List.rdropWhile_concat_pos _ _ x hx, h]

theorem pyStrip_eq_self (s : Str) (h1 : isPySpace (s.headD 'x') = false)
    (h2 : isPySpace (s.getLastD 'x') = false) : pyStrip s = s := by
  unfold pyStrip
  have hd : s.dropWhile isPySpace = s := by
    cases s with
    | nil => rfl
    | cons a t =>
      simp only [List.headD_cons] at h1
      rw [List.dropWhile_cons, if_neg (by simp [h1])]
  rw [hd, List.rdropWhile_eq_self_iff]
  intro hl hp
  have hgl : s.getLastD 'x' = s.getLast hl := by
    rw [List.getLastD_eq_getLast?, List.getLast?_eq_getLast s hl]
    rfl
  rw [hgl] at h2
  exact absurd hp (by simp [h2])

theorem pyStrip_nil : pyStrip [] = [] := rfl

theorem findSplit_some_eq (sep : Str) :
    ∀ s a b : Str, findSplit sep s = some (a, b) → s = a ++ sep ++ b := by
  intro s
  induction s with
  | nil => intro a b h; cases h
  | cons c rest ih =>
    intro a b h
    rw [findSplit] at h
    by_cases hp : sep.isPrefixOf (c :: rest)
    · rw [if_pos hp] at h
      obtain ⟨rfl, rfl⟩ : [] = a ∧ (c :: rest).drop sep.length = b := by
        cases h; exact ⟨rfl, rfl⟩
      have := (List.prefix_iff_eq_append).mp (List.isPrefixOf_iff_prefix.mp hp)
      simpa using this.symm
    · rw [if_neg hp] at h
      cases hfs : findSplit sep rest with
      | none => rw [hfs] at h; cases h
      | some p =>
        rw [hfs] at h
        obtain ⟨rfl, rfl⟩ : c :: p.1 = a ∧ p.2 = b := by cases h; exact ⟨rfl, rfl⟩
        have := ih p.1 p.2 (by rw [hfs])
        rw [List.cons_append, List.cons_append, ← this]

theorem findSplit_cons_isSome (sep : Str) (x : Char) (t : Str)
    (h : (findSplit sep t).isSome = true) : (findSplit sep (x :: t)).isSome = true := by
  rw [findSplit]
  by_cases hp : sep.isPrefixOf (x :: t)
  · rw [if_pos hp]; rfl
  · rw [if_neg hp]
    cases hfs : findSplit sep t with
    | none => rw [hfs] at h; cases h
    | some p => rfl

theorem findSplit_append_left_isSome (sep t : Str) (h : (findSplit sep t).isSome = true) :
    ∀ pre : Str, (findSplit sep (pre ++ t)).isSome = true := by
  intro pre
  induction pre with
  | nil => simpa using h
  | cons x p ih => exact findSplit_cons_isSome sep x (p ++ t) ih

theorem findSplit_self_append_isSome (sep b : Str) (hsep : sep ≠ []) :
    (findSplit sep (sep ++ b)).isSome = true := by
  cases sep with
  | nil => exact absurd rfl hsep
  | cons c cs =>
    show (findSplit (c :: cs) (c :: (cs ++ b))).isSome = true
    rw [findSplit, if_pos (show (c :: cs).isPrefixOf (c :: (cs ++ b)) = true from
      List.isPrefixOf_iff_prefix.mpr (List.prefix_append _ b))]
    rfl

theorem findSplit_none_of_short (sep s : Str) (h : s.length < sep.length) :
    findSplit sep s = none := by
  cases heq : findSplit sep s with
  | none => rfl
  | some p =>
    have := findSplit_some_eq sep s p.1 p.2 (by rw [heq])
    rw [this] at h
    simp only [List.length_append] at h
    omega

theorem findSplit_append_sep (sep : Str) (hsep : sep ≠ []) :
    ∀ a b : Str, pyIn sep (a ++ sep.dropLast) = false →
      findSplit sep (a ++ sep ++ b) = some (a, b) := by
  intro a
  induction a with
  | nil =>
    intro b _
    cases sep with
    | nil => exact absurd rfl hsep
    | cons c cs =>
      show findSplit (c :: cs) (c :: (cs ++ b)) = some ([], b)
      rw [findSplit, if_pos (show (c :: cs).isPrefixOf (c :: (cs ++ b)) = true from
        List.isPrefixOf_iff_prefix.mpr (List.prefix_append _ b))]
      show some ([], List.drop cs.length (cs ++ b)) = some ([], b)
      rw [List.drop_left]
  | cons x a2 ih =>
    intro b hno
    have hsplit : (x :: a2) ++ sep ++ b =
        ((x :: a2) ++ sep.dropLast) ++ (sep.getLast hsep :: b) := by
      conv_lhs => rw [← List.dropLast_append_getLast hsep]
      simp
    have hpre : ¬ sep.isPrefixOf ((x :: a2) ++ sep ++ b) := by
      intro hp
      have h1 : sep <+: ((x :: a2) ++ sep.dropLast) ++ (sep.getLast hsep :: b) := by
        rw [← hsplit]; exact List.isPrefixOf_iff_prefix.mp hp
      have hlen : sep.length ≤ ((x :: a2) ++ sep.dropLast).length := by
        simp only [List.length_append, List.length_cons, List.length_dropLast]
        have : 1 ≤ sep.length := by
          cases sep with
          | nil => exact absurd rfl hsep
          | cons _ _ => simp
        omega
      have h2 : sep <+: (x :: a2) ++ sep.dropLast :=
        List.prefix_of_prefix_length_le h1 (List.prefix_append _ _) hlen
      obtain ⟨r, hr⟩ := h2
      have : (findSplit sep ((x :: a2) ++ sep.dropLast)).isSome = true := by
        rw [← hr]
        exact findSplit_self_append_isSome sep r hsep
      rw [show pyIn sep ((x :: a2) ++ sep.dropLast) = (findSplit sep
        ((x :: a2) ++ sep.dropLast)).isSome from rfl, this] at hno
      cases hno
    have hno2 : pyIn sep (a2 ++ sep.dropLast) = false := by
      cases h2 : pyIn sep (a2 ++ sep.dropLast) with
      | false => rfl
      | true =>
        have : (findSplit sep (x :: (a2 ++ sep.dropLast))).isSome = true :=
          findSplit_cons_isSome sep x _ h2
        rw [show pyIn sep ((x :: a2) ++ sep.dropLast) = (findSplit sep
          (x :: (a2 ++ sep.dropLast))).isSome from rfl, this] at hno
        cases hno
    show findSplit sep (x :: (a2 ++ sep ++ b)) = some (x :: a2, b)
    rw [findSplit, if_neg (by exact hpre), ih b hno2]
    rfl

theorem pySplitF_congr (sep : Str) (hsep : sep ≠ []) :
    ∀ f1 f2 : Nat, ∀ s : Str, s.length < f1 → s.length < f2 →
      pySplitF f1 sep s = pySplitF f2 sep s := by
  have hseplen : 1 ≤ sep.length := by
    cases sep with
    | nil => exact absurd rfl hsep
    | cons _ _ => simp
  intro f1
  induction f1 with
  | zero => intro f2 s h1; omega
  | succ k ih =>
    intro f2 s h1 h2
    cases f2 with
    | zero => omega
    | succ g =>
      show pySplitF (k + 1) sep s = pySplitF (g + 1) sep s
      rw [pySplitF, pySplitF]
      cases hfs : findSplit sep s with
      | none => rfl
      | some p =>
        have heq := findSplit_some_eq sep s p.1 p.2 (by rw [hfs])
        have hlt : p.2.length < s.length := by
          rw [heq]
          simp only [List.length_append]
          omega
        exact congrArg (p.1 :: ·) (ih g p.2 (by omega) (by omega))

theorem pySplit_cons (sep s a b : Str) (hsep : sep ≠ [])
    (h : findSplit sep s = some (a, b)) :
    pySplit sep s = a :: pySplit sep b := by
  have heq := findSplit_some_eq sep s a b h
  have hseplen : 1 ≤ sep.length := by
    cases sep with
    | nil => exact absurd rfl hsep
    | cons _ _ => simp
  unfold pySplit
  rw [pySplitF, h]
  refine congrArg (a :: ·) (pySplitF_congr sep hsep _ _ b ?_ (Nat.lt_succ_self _))
  rw [heq]
  simp only [List.length_append]
  omega

theorem pySplit_single (sep s : Str) (h : findSplit sep s = none) :
    pySplit sep s = [s] := by
  unfold pySplit
  rw [pySplitF, h]

theorem getLastD_append_of_ne (l1 l2 : Str) (h : l2 ≠ []) (d : Char) :
    (l1 ++ l2).getLastD d = l2.getLastD d := by
  rw [List.getLastD_eq_getLast?, List.getLastD_eq_getLast?, List.getLast?_append]
  cases hl : l2.getLast? with
  | none => exact absurd (List.getLast?_eq_none_iff.mp hl) h
  | some v => rfl

theorem pyIn_false_of_cons (sep : Str) (x : Char) (t : Str)
    (h : pyIn sep (x :: t) = false) : pyIn sep t = false := by
  cases hc : pyIn sep t with
  | false => rfl
  | true =>
    rw [show pyIn sep (x :: t) = (findSplit sep (x :: t)).isSome from rfl,
      findSplit_cons_isSome sep x t hc] at h
    cases h

theorem renderLog_cons (r : RawCommit) (rest : List RawCommit) :
    renderLog (r :: rest) =
      (renderCommit r ++ ['\n']) ++ SENTINEL ++
        ((if rest.isEmpty then [] else ['\n']) ++ renderLog rest) := by
  cases rest with
  | nil =>
    show renderCommit r ++ '\n' :: SENTINEL = _
    simp [show renderLog ([] : List RawCommit) = [] from rfl]
  | cons r2 t =>
    show renderCommit r ++ '\n' :: SENTINEL ++ '\n' :: renderLog (r2 :: t) = _
    simp

theorem no_early_sentinel (r : RawCommit) (pad : Str) (hpad : pad = [] ∨ pad = ['\n'])
    (hw : pyIn SENTINEL ('\n' :: renderCommit r ++ '\n' :: SENTINEL.dropLast) = false) :
    pyIn SENTINEL ((pad ++ renderCommit r ++ ['\n']) ++ SENTINEL.dropLast) = false := by
  rcases hpad with rfl | rfl
  · have h2 : pyIn SENTINEL (renderCommit r ++ '\n' :: SENTINEL.dropLast) = false :=
      pyIn_false_of_cons SENTINEL '\n' _ hw
    simpa [List.append_assoc] using h2
  · simpa [List.append_assoc] using hw

theorem pySplit_renderLog :
    ∀ (recs : List RawCommit) (pad : Str), (pad = [] ∨ pad = ['\n']) →
      (∀ r ∈ recs,
        pyIn SENTINEL ('\n' :: renderCommit r ++ '\n' :: SENTINEL.dropLast) = false) →
      pySplit SENTINEL (pad ++ renderLog recs) = logChunks pad recs := by
  intro recs
  induction recs with
  | nil =>
    intro pad hpad _
    show pySplit SENTINEL (pad ++ renderLog []) = [pad]
    rw [show renderLog [] = [] from rfl, List.append_nil]
    apply pySplit_single
    apply findSplit_none_of_short
    rcases hpad with rfl | rfl <;> decide
  | cons r rest ih =>
    intro pad hpad hwf
    have hsent : SENTINEL ≠ [] := by decide
    have h1 : pad ++ renderLog (r :: rest) =
        (pad ++ renderCommit r ++ ['\n']) ++ SENTINEL ++
          ((if rest.isEmpty then [] else ['\n']) ++ renderLog rest) := by
      rw [renderLog_cons]
      simp [List.append_assoc]
    rw [h1, pySplit_cons SENTINEL _ _ _ hsent
      (findSplit_append_sep SENTINEL hsent _ _
        (no_early_sentinel r pad hpad (hwf r (List.mem_cons_self r rest)))),
      ih _ (by cases rest <;> simp) (fun q hq => hwf q (List.mem_cons_of_mem r hq))]
    rfl

/-- Every path of the per-target loop body records the target's repo name. -/
theorem process_target_repo (cfg : Config) (b tg : Str) (t : BulkTarget)
    (env : TargetEnv) : (process_target cfg b tg t env).repo = t.repo := by
  unfold process_target
  dsimp only
  repeat' split <;> try rfl

theorem headD_append_of_ne (l1 l2 : Str) (h : l1 ≠ []) (d : Char) :
    (l1 ++ l2).headD d = l1.headD d := by
  cases l1 with
  | nil => exact absurd rfl h
  | cons c t => rfl

theorem parseCommitText_congr (a b : Str) (h : pyStrip a = pyStrip b) :
    parseCommitText a = parseCommitText b := by
  unfold parseCommitText
  rw [h]

theorem parseCommitText_of_lines (t : Str) (l0 l1 l2 l3 l4 l5 : Str) (rest : List Str)
    (hne : ¬ pyStrip t = [])
    (hl : splitChar '\n' (pyStrip t) = l0 :: l1 :: l2 :: l3 :: l4 :: l5 :: rest) :
    parseCommitText t =
      match pyToInt? l4 with
      | none => .error (strOf "invalid literal for int")
      | some ts =>
        .ok (some ⟨l0, l1, l2, l3, ts, l5,
          if rest = [] then [] else pyStrip (pyJoin (strOf "\n") rest)⟩) := by
  unfold parseCommitText
  rw [if_neg hne]
  simp only [hl]
  rw [if_pos (by simp)]
  rw [show (l0 :: l1 :: l2 :: l3 :: l4 :: l5 :: rest).getD 4 [] = l4 from rfl]
  cases hint : pyToInt? l4 with
  | none => rfl
  | some ts =>
    cases rest with
    | nil =>
      rw [if_neg (by simp)]
      rfl
    | cons q qs =>
      rw [if_pos (by simp), if_neg (show ¬ (q :: qs) = ([] : List Str) by simp)]
      rfl

theorem parse_renderCommit (r : RawCommit) (hw : wfRawCommit r) :
    parseCommitText (renderCommit r) = .ok (some (toEntry r)) := by
  obtain ⟨hnl1, hnl2, hnl3, hnl4, hnl5, hnl6, hne, hhead, hsne, hslast, hbhead, hblast,
    hts, -⟩ := hw
  obtain ⟨v, hv⟩ := Option.isSome_iff_exists.mp hts
  by_cases hb : r.body = []
  · have hA : renderCommit r =
        (r.hash ++ ('\n' :: (r.shortHash ++ ('\n' :: (r.author ++ ('\n' :: (r.email ++
          ('\n' :: (r.timestampText ++ ('\n' :: r.subject))))))))))
          ++ ['\n'] := by
      unfold renderCommit
      rw [hb]
      simp
    have hstrip : pyStrip (renderCommit r) =
        r.hash ++ ('\n' :: (r.shortHash ++ ('\n' :: (r.author ++ ('\n' :: (r.email ++
          ('\n' :: (r.timestampText ++ ('\n' :: r.subject))))))))) := by
      rw [hA, pyStrip_append_ws '\n' _ (by decide)]
      apply pyStrip_eq_self
      · rw [headD_append_of_ne _ _ hne]
        exact hhead
      · rw [show r.hash ++ ('\n' :: (r.shortHash ++ ('\n' :: (r.author ++ ('\n' ::
            (r.email ++ ('\n' :: (r.timestampText ++ ('\n' :: r.subject))))))))) =
            (r.hash ++ ('\n' :: (r.shortHash ++ ('\n' :: (r.author ++ ('\n' ::
              (r.email ++ ('\n' :: (r.timestampText ++ ['\n'])))))))))
              ++ r.subject by simp,
          getLastD_append_of_ne _ _ hsne]
        exact hslast
    have hnil : ¬ pyStrip (renderCommit r) = [] := by
      rw [hstrip]
      cases hh : r.hash with
      | nil => exact absurd hh hne
      | cons c tl => simp
    have hlines : splitChar '\n' (pyStrip (renderCommit r)) =
        [r.hash, r.shortHash, r.author, r.email, r.timestampText, r.subject] := by
      rw [hstrip, splitChar_append_cons _ _ _ hnl1, splitChar_append_cons _ _ _ hnl2,
        splitChar_append_cons _ _ _ hnl3, splitChar_append_cons _ _ _ hnl4,
        splitChar_append_cons _ _ _ hnl5, splitChar_eq_singleton _ _ hnl6]
    rw [parseCommitText_of_lines (renderCommit r) _ _ _ _ _ _ [] hnil hlines, hv]
    unfold toEntry
    rw [hv, hb]
    rfl
  · have hstrip : pyStrip (renderCommit r) = renderCommit r := by
      apply pyStrip_eq_self
      · unfold renderCommit
        rw [headD_append_of_ne _ _ hne]
        exact hhead
      · rw [show renderCommit r =
            (r.hash ++ ('\n' :: (r.shortHash ++ ('\n' :: (r.author ++ ('\n' ::
              (r.email ++ ('\n' :: (r.timestampText ++ ('\n' :: (r.subject ++
                ['\n'])))))))))))
              ++ r.body by unfold renderCommit; simp,
          getLastD_append_of_ne _ _ hb]
        exact hblast
    have hnil : ¬ pyStrip (renderCommit r) = [] := by
      rw [hstrip]
      unfold renderCommit
      cases hh : r.hash with
      | nil => exact absurd hh hne
      | cons c tl => simp
    have hlines : splitChar '\n' (pyStrip (renderCommit r)) =
        r.hash :: r.shortHash :: r.author :: r.email :: r.timestampText :: r.subject ::
          splitChar '\n' r.body := by
      rw [hstrip]
      unfold renderCommit
      rw [splitChar_append_cons _ _ _ hnl1, splitChar_append_cons _ _ _ hnl2,
        splitChar_append_cons _ _ _ hnl3, splitChar_append_cons _ _ _ hnl4,
        splitChar_append_cons _ _ _ hnl5, splitChar_append_cons _ _ _ hnl6]
    rw [parseCommitText_of_lines (renderCommit r) _ _ _ _ _ _ (splitChar '\n' r.body)
      hnil hlines, hv]
    unfold toEntry
    rw [hv, if_neg (splitChar_ne_nil '\n' r.body),
      show strOf "\n" = ['\n'] from rfl, pyJoin_splitChar '\n' r.body,
      pyStrip_eq_self r.body hbhead hblast]
    rfl

theorem wf_noSent (r : RawCommit) (hw : wfRawCommit r) :
    pyIn SENTINEL ('\n' :: renderCommit r ++ '\n' :: SENTINEL.dropLast) = false := by
  obtain ⟨-, -, -, -, -, -, -, -, -, -, -, -, -, h⟩ := hw
  exact h

theorem parse_chunk (r : RawCommit) (hw : wfRawCommit r) (pad : Str)
    (hpad : pad = [] ∨ pad = ['\n']) :
    parseCommitText (pad ++ renderCommit r ++ ['\n']) = .ok (some (toEntry r)) := by
  have hs : pyStrip (pad ++ renderCommit r ++ ['\n']) = pyStrip (renderCommit r) := by
    rcases hpad with rfl | rfl
    · simpa using pyStrip_append_ws '\n' (renderCommit r) (by decide)
    · rw [show (['\n'] ++ renderCommit r ++ ['\n'] : Str) =
          '\n' :: (renderCommit r ++ ['\n']) by simp,
        pyStrip_cons_ws '\n' _ (by decide), pyStrip_append_ws '\n' _ (by decide)]
  rw [parseCommitText_congr _ _ hs]
  exact parse_renderCommit r hw

theorem fold_parse_logChunks :
    ∀ (recs : List RawCommit) (pad : Str) (acc : List CommitEntry),
      (pad = [] ∨ pad = ['\n']) → (∀ r ∈ recs, wfRawCommit r) →
      List.foldlM
        (fun acc t =>
          (parseCommitText t).map fun o =>
            match o with
            | none => acc
            | some e => acc ++ [e])
        acc (logChunks pad recs) = .ok (acc ++ recs.map toEntry) := by
  intro recs
  induction recs with
  | nil =>
    intro pad acc hpad _
    have hblank : parseCommitText pad = .ok none := by
      unfold parseCommitText
      rw [if_pos (by rcases hpad with rfl | rfl <;> decide)]
    show List.foldlM _ acc [pad] = _
    rw [List.foldlM_cons, hblank]
    simp [Except.map]
  | cons r rest ih =>
    intro pad acc hpad hwf
    show List.foldlM _ acc ((pad ++ renderCommit r ++ ['\n']) ::
      logChunks (if rest.isEmpty then [] else ['\n']) rest) = _
    rw [List.foldlM_cons, parse_chunk r (hwf r (List.mem_cons_self r rest)) pad hpad]
    show (Except.ok (acc ++ [toEntry r]) >>= fun b => List.foldlM _ b _) = _
    rw [show ∀ (b : List CommitEntry) (f : List CommitEntry →
        Except Str (List CommitEntry)), (Except.ok b >>= f) = f b from fun _ _ => rfl]
    rw [ih _ _ (by cases rest <;> simp) (fun q hq => hwf q (List.mem_cons_of_mem r hq))]
    simp

theorem parseCommitLog_renderLog (recs : List RawCommit)
    (hwf : ∀ r ∈ recs, wfRawCommit r) :
    parseCommitLog (renderLog recs) = .ok (recs.map toEntry) := by
  unfold parseCommitLog
  rw [show renderLog recs = [] ++ renderLog recs from (List.nil_append _).symm,
    pySplit_renderLog recs [] (Or.inl rfl) (fun r hr => wf_noSent r (hwf r hr))]
  simpa using fold_parse_logChunks recs [] [] (Or.inl rfl) hwf

/-! ## Claims -/

/-- C1: for every bulk-tag request with nonempty branch name, tag name and
target list, the handler returns a 200 response whose result list has
exactly one entry per requested target, in the same order as the request's
target list (witnessed by the repo name of each entry), for every
combination of per-target subprocess outcomes: the batch never aborts
early. -/
theorem bulk_tag_result_per_target (cfg : Config) (branch tag : Str)
    (targets : List BulkTarget) (envs : Nat → TargetEnv)
    (hb : branch ≠ []) (ht : tag ≠ []) (hr : targets ≠ []) :
    ∃ rs, bulk_tag_repos (some branch) (some tag) targets (some cfg) envs = .ok 200 rs ∧
      rs.length = targets.length ∧
      ∀ i (h1 : i < rs.length) (h2 : i < targets.length),
        (rs.get ⟨i, h1⟩).repo = (targets.get ⟨i, h2⟩).repo := by
  refine ⟨targets.enum.map fun p => process_target cfg branch tag p.2 (envs p.1),
    ?_, ?_, ?_⟩
  · unfold bulk_tag_repos
    simp [hb, ht, hr]
  · simp [List.enum_length]
  · intro i h1 h2
    simp only [List.get_eq_getElem, List.getElem_map, List.getElem_enum]
    exact process_target_repo ..

/-- C1 witness: a concrete one-target request. -/
theorem bulk_tag_result_per_target_witness :
    ∃ rs, bulk_tag_repos (some (strOf "main")) (some (strOf "v1")) [⟨strOf "r", none, none⟩]
        (some ⟨none, none, none, none⟩)
        (fun _ => ⟨.ran 0 [] [], (0, []), (0, []), .ran 0 [] [], .ran 0 [] []⟩) =
      .ok 200 rs ∧
      rs.length = [(⟨strOf "r", none, none⟩ : BulkTarget)].length ∧
      ∀ i (h1 : i < rs.length) (h2 : i < [(⟨strOf "r", none, none⟩ : BulkTarget)].length),
        (rs.get ⟨i, h1⟩).repo = ([(⟨strOf "r", none, none⟩ : BulkTarget)].get ⟨i, h2⟩).repo :=
  bulk_tag_result_per_target _ _ _ _ _ (by decide) (by decide) (by decide)

/-- C2 counterexample: with the organization-scoped hosted dialect, an empty
organization and a nonempty token (so credentials are present and the
credential prefix is nonempty), resolution still fails with the
organization-required error, contrary to the claim. -/
theorem resolve_orgless_with_creds_cex :
    auth_part [] (strOf "tok") ≠ [] ∧
    isDirectUrl (strOf "https://dev.azure.com") = false ∧
    pyIn (strOf "visualstudio.com") (base_url_clean (strOf "https://dev.azure.com")) = false ∧
    resolve_repo_url [] (strOf "https://dev.azure.com") [] (strOf "tok")
        (strOf "proj") (strOf "repo") =
      .error (strOf "organization required for dev.azure.com URLs") := by decide

/-- C2 amended: URL resolution fails (with the organization-required
ConfigError) exactly when the organization-scoped hosted dialect is selected
and the organization is empty, regardless of whether credentials are
present. -/
theorem resolve_config_error_iff (org base u t proj repo : Str) :
    resolve_repo_url org base u t proj repo =
      .error (strOf "organization required for dev.azure.com URLs") ↔
    isDirectUrl base = false ∧
      pyIn (strOf "visualstudio.com") (base_url_clean base) = false ∧ org = [] := by
  unfold resolve_repo_url
  by_cases hd : isDirectUrl base
  · simp [hd]
  · by_cases hv : pyIn (strOf "visualstudio.com") (base_url_clean base)
    · simp [hd, hv]
    · by_cases ho : org = [] <;> simp [hd, hv, ho]

/-- C3: for every username and token, the credential prefix the handlers
embed in resolved URLs (auth_part, computed identically in all four
handlers and used by resolve_repo_url for every dialect) is exactly the
four-case rule of the specification. -/
theorem auth_part_eq_spec (u t : Str) : auth_part u t = credPrefixSpec u t := by
  cases u <;> cases t <;> simp [auth_part, credPrefixSpec]

/-- C4: whenever the ref-listing subprocess (branch or tag listing) runs and
exits non-zero, the handler returns a 200 response whose payload is an empty
ref list together with the subprocess's raw stderr in the error field. -/
theorem ref_listing_nonzero_exit (r : Str) (proj base : Option Str) (cfg : Config)
    (code : Int) (out errtxt : Str)
    (hres : (resolve_repo_url (cfgOrg cfg) (base.getD (cfgBaseUrl cfg)) (cfgUser cfg)
      (cfgToken cfg) (proj.getD r) r).isOk = true)
    (hcode : code ≠ 0) :
    fetch_repo_branches (some r) proj base (some cfg) (.ran code out errtxt) =
      .ok 200 ⟨[], some errtxt⟩ ∧
    fetch_repo_tags (some r) proj base (some cfg) (.ran code out errtxt) =
      .ok 200 ⟨[], some errtxt⟩ := by
  obtain ⟨u, hu⟩ : ∃ u, resolve_repo_url (cfgOrg cfg) (base.getD (cfgBaseUrl cfg))
      (cfgUser cfg) (cfgToken cfg) (proj.getD r) r = .ok u := by
    cases h : resolve_repo_url (cfgOrg cfg) (base.getD (cfgBaseUrl cfg)) (cfgUser cfg)
        (cfgToken cfg) (proj.getD r) r with
    | ok u => exact ⟨u, rfl⟩
    | error e => rw [h] at hres; cases hres
  constructor
  · unfold fetch_repo_branches
    simp [hu, hcode]
  · unfold fetch_repo_tags
    simp [hu, hcode]

/-- C4 witness: a concrete configuration and a failing listing subprocess. -/
theorem ref_listing_nonzero_exit_witness :
    fetch_repo_branches (some (strOf "repo")) none none
        (some ⟨some (strOf "acme"), none, none, none⟩) (.ran 128 [] (strOf "fatal: x")) =
      .ok 200 ⟨[], some (strOf "fatal: x")⟩ ∧
    fetch_repo_tags (some (strOf "repo")) none none
        (some ⟨some (strOf "acme"), none, none, none⟩) (.ran 128 [] (strOf "fatal: x")) =
      .ok 200 ⟨[], some (strOf "fatal: x")⟩ :=
  ref_listing_nonzero_exit _ _ _ _ _ _ _ (by decide) (by decide)

/-- C5 counterexample: a schemeless base URL containing .git with no
credentials: the direct-URL dialect is selected, but the resolved URL is the
base URL used verbatim as the whole URL, not the scheme-stripped base URL
with the (empty) credential prefix and the https scheme prepended. -/
theorem direct_url_verbatim_cex :
    isDirectUrl (strOf "git@hosted.example.com:org/repo.git") = true ∧
    resolve_repo_url (strOf "org") (strOf "git@hosted.example.com:org/repo.git") [] []
        (strOf "p") (strOf "r") =
      .ok (strOf "git@hosted.example.com:org/repo.git") ∧
    strOf "git@hosted.example.com:org/repo.git" ≠
      strOf "https://" ++ auth_part [] [] ++
        base_url_clean (strOf "git@hosted.example.com:org/repo.git") := by decide

/-- C5 amended: for every base URL containing .git, github.com or
gitlab.com, the direct-URL dialect is selected regardless of organization
(and of project/repo): with a nonempty credential prefix the resolved URL is
https plus the prefix plus the scheme-stripped base URL; with an empty
prefix the base URL itself, unmodified, is the resolved URL. -/
theorem direct_url_resolution (org org2 base u t proj proj2 repo repo2 : Str)
    (hd : isDirectUrl base = true) :
    resolve_repo_url org base u t proj repo =
      .ok (if auth_part u t ≠ [] then
            strOf "https://" ++ auth_part u t ++ base_url_clean base
          else base) ∧
    resolve_repo_url org base u t proj repo = resolve_repo_url org2 base u t proj2 repo2 := by
  unfold resolve_repo_url
  simp [hd]

/-- C5 amended witness: github base URL with a token. -/
theorem direct_url_resolution_witness :
    (resolve_repo_url (strOf "o") (strOf "https://github.com/a/b") (strOf "u") (strOf "t")
        (strOf "p") (strOf "r") =
      .ok (if auth_part (strOf "u") (strOf "t") ≠ [] then
            strOf "https://" ++ auth_part (strOf "u") (strOf "t") ++
              base_url_clean (strOf "https://github.com/a/b")
          else strOf "https://github.com/a/b") ∧
    resolve_repo_url (strOf "o") (strOf "https://github.com/a/b") (strOf "u") (strOf "t")
        (strOf "p") (strOf "r") =
      resolve_repo_url (strOf "zz") (strOf "https://github.com/a/b") (strOf "u") (strOf "t")
        (strOf "p2") (strOf "r2")) :=
  direct_url_resolution _ _ _ _ _ _ _ _ _ (by decide)

/-- C9: the recorded result of one bulk-tag target does not depend on the
outcomes (exit status and stderr) of the two best-effort tag deletions: for
any two environments differing only there, the per-target workflow records
the same result, so only clone, tag creation and push failures are ever
recorded. -/
theorem bulk_tag_deletes_ignored (cfg : Config) (b tg : Str) (t : BulkTarget)
    (cl tc p : SubprocOut) (d1 d2 d1x d2x : Int × Str) :
    process_target cfg b tg t ⟨cl, d1, d2, tc, p⟩ =
      process_target cfg b tg t ⟨cl, d1x, d2x, tc, p⟩ := rfl

/-- C10: when the commit-listing request omits the branch parameter the
handler queries branch dev, and when it omits the limit parameter it uses
limit 10. -/
theorem commits_default_branch_and_limit :
    commits_branch_param none = strOf "dev" ∧ commits_limit_param none = some 10 := by
  decide

/-- C6: for every repository, branch and limit, when the clone and the
git log -limit invocations run normally (the log output being git's
rendering of the first limit commits of the branch history, the history
well-formed and newest first), the commit listing returns at most limit
entries, in history order, with timestamps non-increasing along the
returned sequence. -/
theorem listCommits_bounded_newest_first (r : Str) (proj branchP limitP baseP : Option Str)
    (cfg : Config) (n : Nat) (history : List RawCommit)
    (cloneOut cloneErrTxt logErrTxt : Str)
    (hlim : commits_limit_param limitP = some (n : Int))
    (hres : (resolve_repo_url (cfgOrg cfg) (baseP.getD (cfgBaseUrl cfg)) (cfgUser cfg)
      (cfgToken cfg) (proj.getD r) r).isOk = true)
    (hwf : ∀ q ∈ history, wfRawCommit q)
    (hsorted : history.Pairwise (fun a b => rawTs b ≤ rawTs a)) :
    ∃ l : List CommitEntry,
      fetch_repo_commits (some r) proj branchP limitP baseP (some cfg)
        (.ran 0 cloneOut cloneErrTxt) (.ran 0 (gitLogStdout history n) logErrTxt) =
        .ok 200 ⟨l, some (commits_branch_param branchP), none⟩ ∧
      l.length ≤ n ∧
      l.Pairwise (fun a b => b.timestamp ≤ a.timestamp) := by
  obtain ⟨u, hu⟩ : ∃ u, resolve_repo_url (cfgOrg cfg) (baseP.getD (cfgBaseUrl cfg))
      (cfgUser cfg) (cfgToken cfg) (proj.getD r) r = .ok u := by
    cases h : resolve_repo_url (cfgOrg cfg) (baseP.getD (cfgBaseUrl cfg)) (cfgUser cfg)
        (cfgToken cfg) (proj.getD r) r with
    | ok u => exact ⟨u, rfl⟩
    | error e => rw [h] at hres; cases hres
  have hparse : parseCommitLog (gitLogStdout history n) =
      .ok ((history.take n).map toEntry) := by
    unfold gitLogStdout
    exact parseCommitLog_renderLog _ (fun q hq => hwf q (List.mem_of_mem_take hq))
  refine ⟨(history.take n).map toEntry, ?_, ?_, ?_⟩
  · unfold fetch_repo_commits
    rw [hlim]
    simp [hu, hparse]
  · rw [List.length_map, List.length_take]
    exact Nat.min_le_left _ _
  · rw [List.pairwise_map]
    exact (hsorted.sublist (List.take_sublist n history)).imp fun h => h

/-- C6 witness: a two-commit history listed with the default limit. -/
theorem listCommits_bounded_newest_first_witness :
    ∃ l : List CommitEntry,
      fetch_repo_commits (some (strOf "repo")) none none none none
          (some ⟨some (strOf "acme"), none, none, none⟩)
          (.ran 0 [] [])
          (.ran 0 (gitLogStdout
            [⟨strOf "aaaa", strOf "aaa", strOf "An", strOf "ae", strOf "20",
              strOf "two", strOf "B2"⟩,
             ⟨strOf "cccc", strOf "ccc", strOf "Cn", strOf "ce", strOf "10",
              strOf "one", []⟩] 10) []) =
        .ok 200 ⟨l, some (commits_branch_param none), none⟩ ∧
      l.length ≤ 10 ∧
      l.Pairwise (fun a b => b.timestamp ≤ a.timestamp) :=
  listCommits_bounded_newest_first _ _ _ _ _ _ 10 _ _ _ _ (by decide) (by decide)
    (by decide) (by decide)

/-- C7 counterexample: a record with an empty seventh line: the produced
body is the remainder rejoined and then stripped of leading whitespace, not
the plain rejoined remainder the claim describes. -/
theorem parse_record_body_strip_cex :
    parseCommitText (strOf "h\nsh\nan\nae\n5\nsub\n\nbody") =
      .ok (some ⟨strOf "h", strOf "sh", strOf "an", strOf "ae", 5, strOf "sub",
        strOf "body"⟩) ∧
    strOf "body" ≠ pyJoin (strOf "\n")
      ((splitChar '\n' (pyStrip (strOf "h\nsh\nan\nae\n5\nsub\n\nbody"))).drop 6) := by
  decide

/-- C7 amended: a sentinel-delimited record is converted into a CommitEntry
only when its stripped text has at least 6 newline-separated fields (and an
integral timestamp field); records with fewer fields are dropped; the body
is everything after the sixth field rejoined with newlines (preserving
embedded newlines) and stripped of leading and trailing whitespace, empty
when there are exactly 6 fields. -/
theorem parse_record_characterization (chunk : Str) :
    ((splitChar '\n' (pyStrip chunk)).length < 6 → parseCommitText chunk = .ok none) ∧
    (∀ v : Int, 6 ≤ (splitChar '\n' (pyStrip chunk)).length →
      pyToInt? ((splitChar '\n' (pyStrip chunk)).getD 4 []) = some v →
      parseCommitText chunk = .ok (some
        { hash := (splitChar '\n' (pyStrip chunk)).getD 0 [],
          shortHash := (splitChar '\n' (pyStrip chunk)).getD 1 [],
          author := (splitChar '\n' (pyStrip chunk)).getD 2 [],
          email := (splitChar '\n' (pyStrip chunk)).getD 3 [],
          timestamp := v,
          subject := (splitChar '\n' (pyStrip chunk)).getD 5 [],
          body :=
            if 6 < (splitChar '\n' (pyStrip chunk)).length then
              pyStrip (pyJoin (strOf "\n") ((splitChar '\n' (pyStrip chunk)).drop 6))
            else [] })) := by
  constructor
  · intro hlt
    unfold parseCommitText
    by_cases hb : pyStrip chunk = []
    · rw [if_pos hb]
    · rw [if_neg hb]
      dsimp only
      rw [if_neg (by omega)]
  · intro v h6 hts
    have hb : ¬ pyStrip chunk = [] := by
      intro h
      rw [h] at h6
      simp [splitChar] at h6
    unfold parseCommitText
    rw [if_neg hb]
    dsimp only
    rw [if_pos h6, hts]

/-- C7 amended witness: the characterization applied to one record with a
two-line body and one record with too few fields. -/
theorem parse_record_characterization_witness :
    parseCommitText (strOf "a\nb") = .ok none ∧
    parseCommitText (strOf "h\nsh\nan\nae\n5\nsub\nbody") =
      .ok (some
        { hash := (splitChar '\n' (pyStrip (strOf "h\nsh\nan\nae\n5\nsub\nbody"))).getD 0 [],
          shortHash :=
            (splitChar '\n' (pyStrip (strOf "h\nsh\nan\nae\n5\nsub\nbody"))).getD 1 [],
          author :=
            (splitChar '\n' (pyStrip (strOf "h\nsh\nan\nae\n5\nsub\nbody"))).getD 2 [],
          email :=
            (splitChar '\n' (pyStrip (strOf "h\nsh\nan\nae\n5\nsub\nbody"))).getD 3 [],
          timestamp := 5,
          subject :=
            (splitChar '\n' (pyStrip (strOf "h\nsh\nan\nae\n5\nsub\nbody"))).getD 5 [],
          body :=
            if 6 < (splitChar '\n' (pyStrip (strOf "h\nsh\nan\nae\n5\nsub\nbody"))).length
            then
              pyStrip (pyJoin (strOf "\n")
                ((splitChar '\n' (pyStrip (strOf "h\nsh\nan\nae\n5\nsub\nbody"))).drop 6))
            else [] }) :=
  ⟨(parse_record_characterization (strOf "a\nb")).1 (by decide),
   (parse_record_characterization (strOf "h\nsh\nan\nae\n5\nsub\nbody")).2 5 (by decide)
     (by decide)⟩

/-- C8 counterexample: a log record whose second field is not the first 7
characters of the first field parses into a CommitEntry whose shortHash is
not a prefix of its hash: the history operation takes git's abbreviated
hash field verbatim and never derives it from the full hash. -/
theorem commit_short_hash_cex :
    parseCommitLog (strOf "aaaaaaaaaa\nbbbbbbbb\nan\nae\n1\nsub") =
      .ok [⟨strOf "aaaaaaaaaa", strOf "bbbbbbbb", strOf "an", strOf "ae", 1,
        strOf "sub", []⟩] ∧
    strOf "bbbbbbbb" ≠ (strOf "aaaaaaaaaa").take 7 := by
  decide

/-- C8 amended: every RefEntry produced by the branch and tag listings has
shortCommitHash exactly the first 7 characters of commitHash; a
CommitEntry's shortHash is instead the log record's second field taken
verbatim. -/
theorem short_hash_semantics :
    (∀ ns stdout : Str, ∀ e ∈ parseRefLines ns stdout,
      e.shortCommit = e.commit.take 7) ∧
    (∀ chunk : Str, ∀ e : CommitEntry, parseCommitText chunk = .ok (some e) →
      e.shortHash = (splitChar '\n' (pyStrip chunk)).getD 1 []) := by
  constructor
  · intro ns stdout e he
    unfold parseRefLines at he
    rw [List.mem_filterMap] at he
    obtain ⟨line, -, hf⟩ := he
    dsimp only at hf
    by_cases h1 : (line ≠ [] && pyIn ns line) = true
    · rw [if_pos h1] at hf
      by_cases h2 : 2 ≤ (pySplitWS line).length
      · rw [if_pos h2] at hf
        obtain rfl : (⟨pyStrip ((pySplit ns ((pySplitWS line).getD 1 [])).getD 1 []),
            (pySplitWS line).headD [], ((pySplitWS line).headD []).take 7⟩ :
            RefEntry) = e := by
          cases hf
          rfl
        rfl
      · rw [if_neg h2] at hf
        cases hf
    · rw [if_neg h1] at hf
      cases hf
  · intro chunk e hf
    unfold parseCommitText at hf
    by_cases hb : pyStrip chunk = []
    · rw [if_pos hb] at hf
      simp at hf
    · rw [if_neg hb] at hf
      dsimp only at hf
      by_cases h6 : 6 ≤ (splitChar '\n' (pyStrip chunk)).length
      · rw [if_pos h6] at hf
        cases hts : pyToInt? ((splitChar '\n' (pyStrip chunk)).getD 4 []) with
        | none => rw [hts] at hf; cases hf
        | some v =>
          rw [hts] at hf
          simp only [Except.ok.injEq, Option.some.injEq] at hf
          rw [← hf]
      · rw [if_neg h6] at hf
        simp at hf

/-- C8 amended witness: one concrete ls-remote line and one concrete log
record. -/
theorem short_hash_semantics_witness :
    (⟨strOf "main", strOf "deadbeef0001", strOf "deadbee"⟩ : RefEntry).shortCommit =
      (strOf "deadbeef0001").take 7 ∧
    (⟨strOf "aaaaaaaaaa", strOf "bbbbbbbb", strOf "an", strOf "ae", 1, strOf "sub",
      []⟩ : CommitEntry).shortHash =
      (splitChar '\n' (pyStrip (strOf "aaaaaaaaaa\nbbbbbbbb\nan\nae\n1\nsub"))).getD 1 [] :=
  ⟨short_hash_semantics.1 (strOf "refs/heads/")
      (strOf "deadbeef0001\trefs/heads/main") _ (by decide),
   short_hash_semantics.2 (strOf "aaaaaaaaaa\nbbbbbbbb\nan\nae\n1\nsub") _ (by decide)⟩

end GitTag
